import Mathlib

/-!
# IEEE 1115-2014 battery sizing — verification of the calculation core

Shallow embedding of `src/process.py` (the calculation engine of the
`ieee-1115-2014` repository).  Floating-point numbers are modelled as
rationals, the Python exceptions (`IndexError` raised by `checkPeriod` /
`durationBetweenPeriods`, the `ValueError` raised by `numpy.max` on an
empty array) as an `Except` monad over an error kind enumeration named
after the specification's taxonomy.
-/

namespace IEEE1115

/-- Error taxonomy.  `rangeError` and `orderError` embed the two
`IndexError` raises of `checkPeriod` / `durationBetweenPeriods`;
`emptyResultError` embeds the `ValueError` raised by `numpy`'s `.max()`
on the empty `requiredSizesPerSection` array; `numericError` exists only
in the specification's taxonomy (used below to formalise the spec's
claimed behaviour of the Kt factor). -/
inductive Err where
  | rangeError
  | orderError
  | emptyResultError
  | numericError
  deriving DecidableEq, Repr

/-- One row of the `startingCycles` CSV (`startingSequence` in the source):
column 0 the period duration in seconds, column 1 the current in amps,
column 2 the starting cycle number. -/
structure Period where
  duration : ℚ
  current : ℚ
  cycleId : ℚ
  deriving DecidableEq, Repr

/-- Default row used for guarded list access (never reached when the
1-based index has passed `checkPeriod`). -/
def defaultPeriod : Period := ⟨0, 0, 0⟩

/-- The scalar members of `testParams` (class `IEEE1115`) consumed by the
calculation core. -/
structure Params where
  nominalCapacity : ℚ
  numberOfSections : ℤ
  deratingFactorOnTemp : ℚ
  randomSize : ℚ
  designMargin : ℚ
  agingFactor : ℚ
  finalTolerance : ℚ
  deriving DecidableEq, Repr

/-- `checkPeriod(period)`: raises (`IndexError`, embedded as
`Err.rangeError`) unless `1 <= period <= startingSequenceLength`. -/
def checkPeriod (seq : List Period) (p : ℤ) : Except Err Unit :=
  if p < 1 ∨ p > (seq.length : ℤ) then .error .rangeError else .ok ()

/-- `ampsAtPeriod(period)`: current in amps for a given 1-based period
(`startingSequence[period-1][1]`). -/
def ampsAtPeriod (seq : List Period) (p : ℤ) : Except Err ℚ := do
  checkPeriod seq p
  pure (seq.getD (p - 1).toNat defaultPeriod).current

/-- `cycleAtPeriod(period)`: cycle for a given 1-based period
(`startingSequence[period-1][2]`). -/
def cycleAtPeriod (seq : List Period) (p : ℤ) : Except Err ℚ := do
  checkPeriod seq p
  pure (seq.getD (p - 1).toNat defaultPeriod).cycleId

/-- `durationBetweenPeriods(firstPeriod, lastPeriod)`: cumulated duration
between both inclusive 1-based bounds; the slice
`startingSequence[(firstPeriod-1):lastPeriod, 0]` is `take lastPeriod`
followed by `drop (firstPeriod-1)`. -/
def durationBetweenPeriods (seq : List Period) (firstPeriod lastPeriod : ℤ) :
    Except Err ℚ := do
  checkPeriod seq firstPeriod
  checkPeriod seq lastPeriod
  if firstPeriod > lastPeriod then
    .error .orderError
  else
    pure (((seq.take lastPeriod.toNat).drop (firstPeriod - 1).toNat).map
      Period.duration).sum

/-- `ktFactorFunction(duration)`: nominal capacity divided by the
interpolated amps for that duration.  The source performs the division
unconditionally (no sign or zero check). -/
def ktFactorFunction (amps : ℚ → ℚ) (nominalCapacity : ℚ) (duration : ℚ) : ℚ :=
  nominalCapacity / amps duration

/-- Body of the inner `for period in range(1, section+1)` loop: state is
`(previousLoad, requiredSectionSizes)`. -/
def sectionStep (seq : List Period) (amps : ℚ → ℚ)
    (nominalCapacity deratingFactorOnTemp : ℚ) (sec : ℕ)
    (st : ℚ × List ℚ) (period : ℕ) : Except Err (ℚ × List ℚ) := do
  let load ← ampsAtPeriod seq (period : ℤ)
  let changeInLoad := load - st.1
  let durationToSectionEnd ← durationBetweenPeriods seq (period : ℤ) (sec : ℤ)
  let kt := ktFactorFunction amps nominalCapacity durationToSectionEnd
  let requiredSectionSize := changeInLoad * kt * deratingFactorOnTemp
  pure (load, st.2 ++ [requiredSectionSize])

/-- Evaluation of one non-skipped section: run the inner loop over
periods `1..section` starting from `previousLoad = 0.0` and an empty
`requiredSectionSizes`, then sum the per-period sizes
(`requiredSectionSizes.sum()`). -/
def evalSection (seq : List Period) (amps : ℚ → ℚ)
    (nominalCapacity deratingFactorOnTemp : ℚ) (sec : ℕ) : Except Err ℚ := do
  let st ← (List.range' 1 sec).foldlM
    (sectionStep seq amps nominalCapacity deratingFactorOnTemp sec) (0, [])
  pure st.2.sum

/-- The skip test
`section < startingSequenceLength and ampsAtPeriod(section) < ampsAtPeriod(section+1)`;
Python's `and` short-circuits, so the period lookups only run when
`section < startingSequenceLength`. -/
def skipTest (seq : List Period) (sec : ℕ) : Except Err Bool :=
  if sec < seq.length then do
    let a ← ampsAtPeriod seq (sec : ℤ)
    let b ← ampsAtPeriod seq ((sec : ℤ) + 1)
    pure (a < b)
  else
    pure false

/-- The outer `for section in range(1, testParams.numberOfSections+1)`
loop accumulating `requiredSizesPerSection`: skipped sections append
nothing, the others append their section total. -/
def requiredSizesPerSection (seq : List Period) (amps : ℚ → ℚ)
    (nominalCapacity deratingFactorOnTemp : ℚ) (numberOfSections : ℕ) :
    Except Err (List ℚ) :=
  (List.range' 1 numberOfSections).foldlM
    (fun acc sec => do
      let sk ← skipTest seq sec
      if sk then
        pure acc
      else do
        let t ← evalSection seq amps nominalCapacity deratingFactorOnTemp sec
        pure (acc ++ [t]))
    []

/-- `numpy`'s `.max()`: maximum of the array, raising on an empty array
(embedded as `Err.emptyResultError`, the specification's name for that
failure). -/
def listMax : List ℚ → Except Err ℚ
  | [] => .error .emptyResultError
  | x :: xs => .ok (xs.foldl max x)

/-- Python's `int()` conversion: truncation toward zero. -/
def truncToZero (q : ℚ) : ℤ :=
  if q < 0 then -⌊-q⌋ else ⌊q⌋

/-- The final output values printed by the script. -/
structure Report where
  testedCycleNumber : ℚ
  maximumSectionSize : ℚ
  uncorrectedSize : ℚ
  size : ℚ
  numberOfBatteriesRequired : ℤ
  deriving DecidableEq, Repr

/-- The whole calculation of `src/process.py` after the input adapters:
validate `numberOfSections`, run the section loop, look up the tested
cycle number, take the maximum section size and apply random size,
design margin, aging factor and final tolerance. -/
def runSizing (seq : List Period) (amps : ℚ → ℚ) (P : Params) :
    Except Err Report := do
  checkPeriod seq P.numberOfSections
  let totals ← requiredSizesPerSection seq amps P.nominalCapacity
    P.deratingFactorOnTemp P.numberOfSections.toNat
  let cycleNb ← cycleAtPeriod seq P.numberOfSections
  let maximumSectionSize ← listMax totals
  let uncorrectedSize := maximumSectionSize + P.randomSize
  let size := uncorrectedSize * P.designMargin * P.agingFactor
  let numberOfBatteriesRequired :=
    truncToZero ((size * P.finalTolerance + P.nominalCapacity) / P.nominalCapacity)
  pure ⟨cycleNb, maximumSectionSize, uncorrectedSize, size,
    numberOfBatteriesRequired⟩

/-! ## Pure views of the fallible primitives -/

/-- Pure view of the current at a 1-based period, with `current(0) = 0`
(the initial value of `previousLoad` in the source). -/
def loadAt (seq : List Period) (p : ℕ) : ℚ :=
  if p = 0 then 0 else (seq.getD (p - 1) defaultPeriod).current

/-- Pure view of the slice sum computed by `durationBetweenPeriods`. -/
def cumDur (seq : List Period) (f l : ℕ) : ℚ :=
  (((seq.take l).drop (f - 1)).map Period.duration).sum

/-- Per-period contribution to a section total:
`changeInLoad * kt * deratingFactorOnTemp`. -/
def contribution (seq : List Period) (amps : ℚ → ℚ)
    (nominalCapacity deratingFactorOnTemp : ℚ) (sec p : ℕ) : ℚ :=
  (loadAt seq p - loadAt seq (p - 1)) *
    ktFactorFunction amps nominalCapacity (cumDur seq p sec) *
    deratingFactorOnTemp

/-- Pure view of the section total of a non-skipped section. -/
def sectionTotal (seq : List Period) (amps : ℚ → ℚ)
    (nominalCapacity deratingFactorOnTemp : ℚ) (sec : ℕ) : ℚ :=
  ((List.range' 1 sec).map
    (contribution seq amps nominalCapacity deratingFactorOnTemp sec)).sum

/-- Pure view of the skip test. -/
def skipB (seq : List Period) (sec : ℕ) : Bool :=
  decide (sec < seq.length ∧ loadAt seq sec < loadAt seq (sec + 1))

/-- Pure view of `requiredSizesPerSection`: the section totals of the
non-skipped sections, in section order. -/
def sizesList (seq : List Period) (amps : ℚ → ℚ)
    (nominalCapacity deratingFactorOnTemp : ℚ) (numberOfSections : ℕ) : List ℚ :=
  ((List.range' 1 numberOfSections).filter (fun s => ! skipB seq s)).map
    (sectionTotal seq amps nominalCapacity deratingFactorOnTemp)


/-! ## The discharge-curve interpolation model

`ampsByDurationFunction` in the source is
`scipy.interpolate.interp1d(durations, currents, kind="cubic",
fill_value='extrapolate')`; the interpolation code itself lives in
`scipy`, outside this repository.  The model below follows the
specification's description: a cubic spline fit through all samples,
extrapolating beyond the sampled range with the boundary segment's
polynomial. -/

/-- Evaluation of one cubic spline segment between knots `(x0, y0)` and
`(x1, y1)` in the standard form
`y0 + b (x - x0) + c0 (x - x0)^2 + d (x - x0)^3`, where `b` and `d` are
the unique choices that make the segment reach `y1` at `x1` given the
curvature coefficients `c0`, `c1` of the two knots. -/
def splineSegEval (x0 y0 x1 y1 c0 c1 x : ℚ) : ℚ :=
  let h := x1 - x0
  let b := (y1 - y0) / h - h * (2 * c0 + c1) / 3
  let d := (c1 - c0) / (3 * h)
  y0 + b * (x - x0) + c0 * (x - x0) ^ 2 + d * (x - x0) ^ 3

/-- Modelled from the spec: cubic-spline evaluation with
boundary-segment extrapolation (the behaviour of `scipy`'s
`interp1d(..., kind="cubic", fill_value='extrapolate')`, whose
implementation is outside this repository).  Selects the segment whose
knot interval contains `x` (the first segment for `x` below the range,
the final segment for `x` beyond it) and evaluates its polynomial. -/
def splineEval : List (ℚ × ℚ) → List ℚ → ℚ → ℚ
  | (x0, y0) :: (x1, y1) :: rest, cs, x =>
    if x < x1 ∨ rest = [] then
      splineSegEval x0 y0 x1 y1 (cs.headD 0) (cs.tail.headD 0) x
    else
      splineEval ((x1, y1) :: rest) cs.tail x
  | _, _, _ => 0

/-- One row of the natural-cubic-spline tridiagonal system
`(sub, diag, super, rhs)` per interior knot. -/
def interiorRows : List (ℚ × ℚ) → List (ℚ × ℚ × ℚ × ℚ)
  | (x0, y0) :: (x1, y1) :: (x2, y2) :: rest =>
    let h0 := x1 - x0
    let h1 := x2 - x1
    (h0, 2 * (h0 + h1), h1, 3 * ((y2 - y1) / h1 - (y1 - y0) / h0)) ::
      interiorRows ((x1, y1) :: (x2, y2) :: rest)
  | _ => []

/-- Forward sweep of the Thomas algorithm: rewrites each row
`(a, b, c, d)` into `(c shifting factor, partial solution)`. -/
def thomasSweep : List (ℚ × ℚ × ℚ × ℚ) → ℚ → ℚ → List (ℚ × ℚ)
  | [], _, _ => []
  | (a, b, c, d) :: rows, cp, dp =>
    let m := b - a * cp
    let cp2 := c / m
    let dp2 := (d - a * dp) / m
    (cp2, dp2) :: thomasSweep rows cp2 dp2

/-- Back substitution of the Thomas algorithm over the reversed sweep
output. -/
def thomasBack : List (ℚ × ℚ) → ℚ → List ℚ
  | [], _ => []
  | (cp, dp) :: rows, xn =>
    let x := dp - cp * xn
    x :: thomasBack rows x

/-- Tridiagonal solve (Thomas algorithm). -/
def thomasSolve (rows : List (ℚ × ℚ × ℚ × ℚ)) : List ℚ :=
  (thomasBack (thomasSweep rows 0 0).reverse 0).reverse

/-- Modelled from the spec: curvature coefficients of the natural cubic
spline through the samples (zero curvature at both boundary knots,
interior knots from the tridiagonal continuity system). -/
def splineCs (pts : List (ℚ × ℚ)) : List ℚ :=
  0 :: (thomasSolve (interiorRows pts) ++ [0])

/-- Modelled from the spec: the discharge-curve query `currentAt` — the
source's `ampsByDurationFunction`, a cubic spline fit through all
`(duration, current)` samples. -/
def ampsByDurationFunction (pts : List (ℚ × ℚ)) : ℚ → ℚ :=
  splineEval pts (splineCs pts)


/-! ## Concrete data used by the witnesses (the spec §8 scenario) -/

/-- Witness duty cycle: two periods, the second with the higher current. -/
def wSeq : List Period := [⟨5, 80, 1⟩, ⟨10, 120, 1⟩]

/-- Witness discharge curve (any concrete positive-current curve works for
the pipeline witnesses). -/
def wAmps : ℚ → ℚ := fun d => 100 - d

/-- Witness sizing parameters (`numberOfSections = 2 = periodCount`). -/
def wParams : Params := ⟨100, 2, 1, 5, 11/10, 12/10, 9/10⟩

/-- Parameters with an out-of-range `numberOfSections`. -/
def wParamsBad : Params := { wParams with numberOfSections := 3 }

/-- Duty cycle whose single candidate section is skipped. -/
def wSeqSkip : List Period := [⟨5, 10, 1⟩, ⟨5, 20, 1⟩]

/-- Parameters evaluating only the (skipped) first section. -/
def wParamsSkip : Params := { wParams with numberOfSections := 1 }

/-- A discharge curve that is negative everywhere (interpolated current
below zero). -/
def cxAmps : ℚ → ℚ := fun _ => -5

/-- The spec §8 discharge samples. -/
def wPts : List (ℚ × ℚ) := [(1, 100), (10, 90), (100, 50), (1000, 20)]

/-- Following the specification's words (§4.1), for comparison with the
source's `ktFactorFunction`: fail with `NumericError` when the
interpolated current is ≤ 0, otherwise return the quotient. -/
def ktFactorSpec (amps : ℚ → ℚ) (nominalCapacity : ℚ) (duration : ℚ) :
    Except Err ℚ :=
  if amps duration ≤ 0 then .error .numericError
  else .ok (nominalCapacity / amps duration)


/-! ## Success characterisations of the primitives -/

/-- `pure` into `Except` is `Except.ok`. -/
@[simp] theorem pure_eq_ok {α : Type} (a : α) : (pure a : Except Err α) = Except.ok a := rfl

/-- `Except` bind on a success reduces to the continuation. -/
@[simp] theorem ok_bind {α β : Type} (a : α) (f : α → Except Err β) :
    (Except.ok a >>= f) = f a := rfl

/-- `Except` bind on a failure propagates the failure. -/
@[simp] theorem error_bind {α β : Type} (e : Err) (f : α → Except Err β) :
    ((Except.error e : Except Err α) >>= f) = Except.error e := rfl

theorem checkPeriod_ok {seq : List Period} {p : ℤ} (h1 : 1 ≤ p)
    (h2 : p ≤ (seq.length : ℤ)) : checkPeriod seq p = .ok () := by
  unfold checkPeriod
  rw [if_neg (by omega)]

theorem ampsAtPeriod_ok {seq : List Period} {p : ℕ} (h1 : 1 ≤ p)
    (h2 : p ≤ seq.length) : ampsAtPeriod seq (p : ℤ) = .ok (loadAt seq p) := by
  have hc : checkPeriod seq (p : ℤ) = .ok () := checkPeriod_ok (by omega) (by omega)
  have ht : ((p : ℤ) - 1).toNat = p - 1 := by omega
  have hp : p ≠ 0 := by omega
  simp [ampsAtPeriod, hc, ht, loadAt, hp]

theorem cycleAtPeriod_ok {seq : List Period} {p : ℕ} (h1 : 1 ≤ p)
    (h2 : p ≤ seq.length) :
    cycleAtPeriod seq (p : ℤ) = .ok (seq.getD (p - 1) defaultPeriod).cycleId := by
  have hc : checkPeriod seq (p : ℤ) = .ok () := checkPeriod_ok (by omega) (by omega)
  have ht : ((p : ℤ) - 1).toNat = p - 1 := by omega
  simp [cycleAtPeriod, hc, ht]

theorem durationBetweenPeriods_ok {seq : List Period} {f l : ℕ} (h1 : 1 ≤ f)
    (h2 : f ≤ l) (h3 : l ≤ seq.length) :
    durationBetweenPeriods seq (f : ℤ) (l : ℤ) = .ok (cumDur seq f l) := by
  have hcf : checkPeriod seq (f : ℤ) = .ok () := checkPeriod_ok (by omega) (by omega)
  have hcl : checkPeriod seq (l : ℤ) = .ok () := checkPeriod_ok (by omega) (by omega)
  have ht : ((f : ℤ) - 1).toNat = f - 1 := by omega
  have hl : (l : ℤ).toNat = l := by omega
  have hno : ¬ ((f : ℤ) > (l : ℤ)) := by omega
  simp [durationBetweenPeriods, hcf, hcl, hno, ht, hl, cumDur]

/-- Sum of a mapped index range as a `Finset.Ico` sum. -/
theorem sum_range'_map (g : ℕ → ℚ) (s : ℕ) :
    ∀ n, ((List.range' s n).map g).sum = ∑ i in Finset.Ico s (s + n), g i
  | 0 => by simp
  | n + 1 => by
    rw [List.range'_concat, List.map_append, List.sum_append, sum_range'_map g s n]
    rw [show s + (n + 1) = (s + n) + 1 by omega,
      Finset.sum_Ico_succ_top (by omega)]
    simp

/-- Invariant of the inner period loop: after periods `1..n` the state
holds `previousLoad = loadAt n` and the list of the first `n`
contributions. -/
theorem sectionLoop_inv (seq : List Period) (amps : ℚ → ℚ) (C k : ℚ) (S : ℕ)
    (hS : S ≤ seq.length) :
    ∀ n, n ≤ S →
      (List.range' 1 n).foldlM (sectionStep seq amps C k S) ((0 : ℚ), ([] : List ℚ)) =
        .ok (loadAt seq n,
          (List.range' 1 n).map (contribution seq amps C k S)) := by
  intro n
  induction n with
  | zero => intro _; simp [loadAt]
  | succ n ih =>
    intro h
    rw [List.range'_concat, List.foldlM_append, ih (by omega)]
    have ha := @ampsAtPeriod_ok seq (n + 1) (by omega) (by omega)
    have hd := @durationBetweenPeriods_ok seq (n + 1) S (by omega) (by omega) hS
    push_cast at ha hd
    simp [sectionStep, ha, hd, contribution, Nat.add_comm 1 n]

/-- Closed form of `evalSection` for an in-range section. -/
theorem evalSection_ok {seq : List Period} {S : ℕ} (amps : ℚ → ℚ) (C k : ℚ)
    (hS : S ≤ seq.length) :
    evalSection seq amps C k S = .ok (sectionTotal seq amps C k S) := by
  unfold evalSection
  rw [sectionLoop_inv seq amps C k S hS S le_rfl]
  simp [sectionTotal]

/-- Closed form of the skip test for an in-range section. -/
theorem skipTest_ok {seq : List Period} {S : ℕ} (h1 : 1 ≤ S)
    (h2 : S ≤ seq.length) : skipTest seq S = .ok (skipB seq S) := by
  unfold skipTest skipB
  by_cases hlt : S < seq.length
  · rw [if_pos hlt]
    have ha := @ampsAtPeriod_ok seq S h1 (by omega)
    have hb := @ampsAtPeriod_ok seq (S + 1) (by omega) (by omega)
    push_cast at ha hb
    simp [ha, hb, hlt]
  · rw [if_neg hlt]
    simp [hlt]

/-- Closed form of the outer section loop. -/
theorem requiredSizesPerSection_ok {seq : List Period} {N : ℕ}
    (amps : ℚ → ℚ) (C k : ℚ) (hN : N ≤ seq.length) :
    requiredSizesPerSection seq amps C k N = .ok (sizesList seq amps C k N) := by
  suffices h : ∀ n, n ≤ N →
      requiredSizesPerSection seq amps C k n = .ok (sizesList seq amps C k n) from
    h N le_rfl
  intro n
  induction n with
  | zero => intro _; simp [requiredSizesPerSection, sizesList]
  | succ n ih =>
    intro h
    have ihn := ih (by omega)
    unfold requiredSizesPerSection at ihn ⊢
    rw [List.range'_concat, List.foldlM_append, ihn]
    have he : (1 + 1 * n : ℕ) = n + 1 := by omega
    rw [he]
    have hsk := @skipTest_ok seq (n + 1) (by omega) (by omega)
    have hev := @evalSection_ok seq (n + 1) amps C k (by omega)
    simp only [ok_bind, List.foldlM_cons, List.foldlM_nil, hsk]
    have hfil : sizesList seq amps C k (n + 1) =
        sizesList seq amps C k n ++
          (if skipB seq (n + 1) then [] else [sectionTotal seq amps C k (n + 1)]) := by
      unfold sizesList
      rw [List.range'_concat, he, List.filter_append, List.map_append]
      by_cases hb : skipB seq (n + 1) <;> simp [hb]
    by_cases hb : skipB seq (n + 1)
    · simp [hb, hfil]
    · simp [hb, hev, hfil]

/-- The left fold of `max` (what `numpy`'s `.max()` computes) is an
element of the list. -/
theorem foldl_max_mem (ts : List ℚ) : ∀ t : ℚ, ts.foldl max t ∈ t :: ts := by
  induction ts with
  | nil => intro t; simp
  | cons a l ih =>
    intro t
    have h := ih (max t a)
    rcases List.mem_cons.mp h with h1 | h1
    · rcases max_choice t a with hm | hm <;> rw [List.foldl_cons, h1, hm] <;> simp
    · simp [List.foldl_cons, List.mem_cons.mpr (Or.inr (List.mem_cons.mpr (Or.inr h1)))]

/-- Every element of the list is bounded by the left fold of `max`. -/
theorem le_foldl_max (ts : List ℚ) : ∀ t : ℚ, ∀ x ∈ t :: ts, x ≤ ts.foldl max t := by
  induction ts with
  | nil => intro t x hx; simp at hx; simp [hx]
  | cons a l ih =>
    intro t x hx
    rcases List.mem_cons.mp hx with h1 | h1
    · subst h1
      exact le_trans (le_max_left x a) (ih (max x a) _ (List.mem_cons_self _ _))
    · rcases List.mem_cons.mp h1 with h2 | h2
      · subst h2
        exact le_trans (le_max_right t x) (ih (max t x) _ (List.mem_cons_self _ _))
      · exact ih (max t a) x (List.mem_cons.mpr (Or.inr h2))

/-- `runSizing` when `numberOfSections` is in range and at least one
section was evaluated: the report is fully determined. -/
theorem runSizing_ok {seq : List Period} {amps : ℚ → ℚ} {P : Params} {t : ℚ}
    {ts : List ℚ} (h1 : 1 ≤ P.numberOfSections)
    (h2 : P.numberOfSections ≤ (seq.length : ℤ))
    (hts : sizesList seq amps P.nominalCapacity P.deratingFactorOnTemp
      P.numberOfSections.toNat = t :: ts) :
    runSizing seq amps P = .ok
      { testedCycleNumber :=
          (seq.getD (P.numberOfSections.toNat - 1) defaultPeriod).cycleId
        maximumSectionSize := ts.foldl max t
        uncorrectedSize := ts.foldl max t + P.randomSize
        size := (ts.foldl max t + P.randomSize) * P.designMargin * P.agingFactor
        numberOfBatteriesRequired := truncToZero
          (((ts.foldl max t + P.randomSize) * P.designMargin * P.agingFactor *
              P.finalTolerance + P.nominalCapacity) / P.nominalCapacity) } := by
  have hc : checkPeriod seq P.numberOfSections = .ok () := checkPeriod_ok h1 h2
  have hreq := @requiredSizesPerSection_ok seq P.numberOfSections.toNat
    amps P.nominalCapacity P.deratingFactorOnTemp (by omega)
  have hcyc := @cycleAtPeriod_ok seq P.numberOfSections.toNat
    (by omega) (by omega)
  have hcast : ((P.numberOfSections.toNat : ℕ) : ℤ) = P.numberOfSections := by omega
  rw [hcast] at hcyc
  simp [runSizing, hc, hreq, hts, hcyc, listMax]

/-- `runSizing` when `numberOfSections` is in range but every section
was skipped: the `.max()` on the empty array fails. -/
theorem runSizing_empty {seq : List Period} {amps : ℚ → ℚ} {P : Params}
    (h1 : 1 ≤ P.numberOfSections)
    (h2 : P.numberOfSections ≤ (seq.length : ℤ))
    (hts : sizesList seq amps P.nominalCapacity P.deratingFactorOnTemp
      P.numberOfSections.toNat = []) :
    runSizing seq amps P = .error .emptyResultError := by
  have hc : checkPeriod seq P.numberOfSections = .ok () := checkPeriod_ok h1 h2
  have hreq := @requiredSizesPerSection_ok seq P.numberOfSections.toNat
    amps P.nominalCapacity P.deratingFactorOnTemp (by omega)
  have hcyc := @cycleAtPeriod_ok seq P.numberOfSections.toNat
    (by omega) (by omega)
  have hcast : ((P.numberOfSections.toNat : ℕ) : ℤ) = P.numberOfSections := by omega
  rw [hcast] at hcyc
  simp [runSizing, hc, hreq, hts, hcyc, listMax]

/-- In a duration-sorted sample list, the head's duration bounds every
member's duration from below. -/
theorem chain_head_le (x1 y1 : ℚ) :
    ∀ (rest : List (ℚ × ℚ)) (x y : ℚ),
      List.Chain' (fun p q : ℚ × ℚ => p.1 < q.1) ((x1, y1) :: rest) →
      (x, y) ∈ (x1, y1) :: rest → x1 ≤ x := by
  intro rest
  induction rest generalizing x1 y1 with
  | nil =>
    intro x y _ hm
    simp at hm
    simp [hm.1]
  | cons p2 rest2 ih =>
    intro x y hc hm
    have hlt : x1 < p2.1 := (List.chain'_cons.mp hc).1
    rcases List.mem_cons.mp hm with h1 | h1
    · simp at h1
      simp [h1.1]
    · have := ih p2.1 p2.2 x y (by simpa using (List.chain'_cons.mp hc).2) (by simpa using h1)
      linarith

/-- The spline interpolant passes through every sample, for any choice
of curvature coefficients. -/
theorem splineEval_sample :
    ∀ (pts : List (ℚ × ℚ)) (cs : List ℚ) (x y : ℚ),
      List.Chain' (fun p q : ℚ × ℚ => p.1 < q.1) pts → 2 ≤ pts.length →
      (x, y) ∈ pts → splineEval pts cs x = y
  | [], _, _, _, _, h, _ => by simp at h
  | [_], _, _, _, _, h, _ => by simp at h
  | (x0, y0) :: (x1, y1) :: rest, cs, x, y, hc, _, hm => by
    have h01 : x0 < x1 := (List.chain'_cons.mp hc).1
    have hcTail : List.Chain' (fun p q : ℚ × ℚ => p.1 < q.1) ((x1, y1) :: rest) :=
      (List.chain'_cons.mp hc).2
    rcases List.mem_cons.mp hm with h1 | h1
    · -- sample is the head knot: first segment applies and vanishes at x0
      have hx : x = x0 ∧ y = y0 := by simpa using h1
      rw [hx.1, hx.2, splineEval, if_pos (Or.inl h01)]
      simp [splineSegEval]
    · rcases List.eq_nil_or_concat rest with hr | _
      · -- two-sample list: the sample is the right knot of the only segment
        subst hr
        have hx : x = x1 ∧ y = y1 := by simpa using h1
        rw [hx.1, hx.2, splineEval, if_pos (Or.inr rfl), splineSegEval]
        have hne : x1 - x0 ≠ 0 := by intro h; apply absurd h01; rw [sub_eq_zero] at h; simp [h]
        field_simp
        ring
      · by_cases hrest : rest = []
        · -- two-sample list again (kept separate from the shape analysis)
          subst hrest
          have hx : x = x1 ∧ y = y1 := by simpa using h1
          rw [hx.1, hx.2, splineEval, if_pos (Or.inr rfl), splineSegEval]
          have hne : x1 - x0 ≠ 0 := by
            intro h; apply absurd h01; rw [sub_eq_zero] at h; simp [h]
          field_simp
          ring
        · -- sample lies at or beyond the second knot: recurse into the tail
          have hx1le : x1 ≤ x := chain_head_le x1 y1 rest x y hcTail h1
          by_cases hxx : x = x1
          · rw [hxx] at h1 ⊢
            rw [splineEval, if_neg (by simp [hrest])]
            exact splineEval_sample ((x1, y1) :: rest) cs.tail x1 y hcTail
              (by cases rest with | nil => exact absurd rfl hrest | cons a l => simp) h1
          · have hnotlt : ¬ x < x1 := by
              intro h; exact hxx (le_antisymm (le_of_lt h) hx1le)
            rw [splineEval, if_neg (by simp [hrest, hnotlt])]
            exact splineEval_sample ((x1, y1) :: rest) cs.tail x y hcTail
              (by cases rest with | nil => exact absurd rfl hrest | cons a l => simp) h1

/-- The slice `[(first-1):last]` as a mapped index range. -/
theorem slice_eq_map_range (seq : List Period) {f l : ℕ} (h1 : 1 ≤ f)
    (h2 : f ≤ l) (h3 : l ≤ seq.length) :
    (seq.take l).drop (f - 1) =
      (List.range' f (l + 1 - f)).map (fun i => seq.getD (i - 1) defaultPeriod) := by
  apply List.ext_getElem
  · simp only [List.length_drop, List.length_take, List.length_map,
      List.length_range']
    omega
  · intro i hi1 hi2
    have hi : i < l + 1 - f := by
      simpa using hi2
    have hlt : f - 1 + i < seq.length := by omega
    simp only [List.getElem_drop, List.getElem_take, List.getElem_map,
      List.getElem_range']
    rw [show f + 1 * i - 1 = f - 1 + i by omega, List.getD_eq_getElem?_getD,
      List.getElem?_eq_getElem hlt]
    rfl

/-- `cumDur` as a sum over the inclusive 1-based index interval. -/
theorem cumDur_eq_sum {seq : List Period} {f l : ℕ} (h1 : 1 ≤ f) (h2 : f ≤ l)
    (h3 : l ≤ seq.length) :
    cumDur seq f l =
      ∑ i in Finset.Icc f l, (seq.getD (i - 1) defaultPeriod).duration := by
  unfold cumDur
  rw [slice_eq_map_range seq h1 h2 h3, List.map_map,
    show (Period.duration ∘ fun i => seq.getD (i - 1) defaultPeriod) =
      fun i => (seq.getD (i - 1) defaultPeriod).duration from rfl,
    sum_range'_map (fun i => (seq.getD (i - 1) defaultPeriod).duration) f (l + 1 - f),
    show f + (l + 1 - f) = l + 1 by omega, Nat.Ico_succ_right]

/-! ## The claims -/

/-- C1: for every non-skipped section `S` (`1 ≤ S ≤ numberOfSections ≤
periodCount`), the section total equals the sum over periods
`p = 1..S` of `(current(p) - current(p-1)) * ktFactor(cumulativeDuration(p, S))
* deratingFactorOnTemp`, with `current(0) = 0`,
`ktFactor(d) = nominalCapacity / currentAt(d)`, and negative
`changeInLoad` contributions added unmodified. -/
theorem ieee_c1 (seq : List Period) (amps : ℚ → ℚ) (C k : ℚ) (S : ℕ)
    (h1 : 1 ≤ S) (h2 : S ≤ seq.length) (hns : skipTest seq S = .ok false) :
    evalSection seq amps C k S =
      .ok (∑ p in Finset.Icc 1 S,
        (loadAt seq p - loadAt seq (p - 1)) *
          ktFactorFunction amps C (cumDur seq p S) * k) := by
  rw [evalSection_ok amps C k h2]
  unfold sectionTotal
  rw [sum_range'_map (contribution seq amps C k S) 1 S,
    show 1 + S = S + 1 by omega, Nat.Ico_succ_right]
  rfl

/-- C1 witness: the spec §8 scenario, section 2 of `wSeq` is not skipped
and its total is the two-period superposition sum. -/
theorem ieee_c1_witness :
    skipTest wSeq 2 = .ok false ∧
    evalSection wSeq wAmps 100 1 2 =
      .ok (∑ p in Finset.Icc 1 2,
        (loadAt wSeq p - loadAt wSeq (p - 1)) *
          ktFactorFunction wAmps 100 (cumDur wSeq p 2) * 1) :=
  ⟨by rfl, ieee_c1 wSeq wAmps 100 1 2 (by decide) (by decide) (by rfl)⟩

/-- C2: a section `S` with `1 ≤ S ≤ numberOfSections ≤ periodCount` is
skipped iff `S < periodCount` and `current(S) < current(S+1)`; every
skipped section satisfies `current(S) < current(S+1)` and contributes
nothing to the list of section totals. -/
theorem ieee_c2 (seq : List Period) (amps : ℚ → ℚ) (C k : ℚ) (N S : ℕ)
    (h1 : 1 ≤ S) (hSN : S ≤ N) (hN : N ≤ seq.length) :
    (skipTest seq S = .ok true ↔
      S < seq.length ∧ loadAt seq S < loadAt seq (S + 1)) ∧
    (skipTest seq S = .ok true → loadAt seq S < loadAt seq (S + 1)) ∧
    (skipTest seq S = .ok true →
      requiredSizesPerSection seq amps C k N =
        .ok ((((List.range' 1 N).filter (fun s => ! skipB seq s)).filter
          (fun s => s ≠ S)).map (sectionTotal seq amps C k))) := by
  have hst : skipTest seq S = .ok (skipB seq S) := skipTest_ok h1 (le_trans hSN hN)
  have hiff : skipTest seq S = .ok true ↔
      S < seq.length ∧ loadAt seq S < loadAt seq (S + 1) := by
    rw [hst]
    simp [skipB]
  refine ⟨hiff, fun h => (hiff.mp h).2, fun h => ?_⟩
  have hsb : skipB seq S = true := by
    unfold skipB
    simp [hiff.mp h]
  have hf : (((List.range' 1 N).filter (fun s => ! skipB seq s)).filter
      (fun s => s ≠ S)) = (List.range' 1 N).filter (fun s => ! skipB seq s) := by
    apply List.filter_eq_self.mpr
    intro a ha
    have hne : a ≠ S := by
      intro hEq
      subst hEq
      have := (List.mem_filter.mp ha).2
      rw [hsb] at this
      simp at this
    simp [hne]
  rw [requiredSizesPerSection_ok amps C k hN]
  unfold sizesList
  rw [hf]

/-- C2 witness: in the spec §8 scenario section 1 is skipped
(`current(1) = 80 < current(2) = 120`) and the totals list holds only
section 2's total. -/
theorem ieee_c2_witness :
    (skipTest wSeq 1 = .ok true ↔
      1 < wSeq.length ∧ loadAt wSeq 1 < loadAt wSeq 2) ∧
    (skipTest wSeq 1 = .ok true → loadAt wSeq 1 < loadAt wSeq 2) ∧
    (skipTest wSeq 1 = .ok true →
      requiredSizesPerSection wSeq wAmps 100 1 2 =
        .ok ((((List.range' 1 2).filter (fun s => ! skipB wSeq s)).filter
          (fun s => s ≠ 1)).map (sectionTotal wSeq wAmps 100 1))) :=
  ieee_c2 wSeq wAmps 100 1 2 1 (by decide) (by decide) (by decide)

/-- C3: with a non-empty list of section totals, the aggregator computes
`uncorrectedSize = max(sectionTotals) + randomSize`,
`correctedSize = uncorrectedSize * designMargin * agingFactor` (the
source's `size`) and `numberOfBatteriesRequired` as the truncation
toward zero of `(correctedSize * finalTolerance + nominalCapacity) /
nominalCapacity`. -/
theorem ieee_c3 (seq : List Period) (amps : ℚ → ℚ) (P : Params) (t : ℚ)
    (ts : List ℚ) (h1 : 1 ≤ P.numberOfSections)
    (h2 : P.numberOfSections ≤ (seq.length : ℤ))
    (hts : sizesList seq amps P.nominalCapacity P.deratingFactorOnTemp
      P.numberOfSections.toNat = t :: ts) :
    ∃ r, runSizing seq amps P = .ok r ∧
      (r.maximumSectionSize ∈ t :: ts ∧ ∀ x ∈ t :: ts, x ≤ r.maximumSectionSize) ∧
      r.uncorrectedSize = r.maximumSectionSize + P.randomSize ∧
      r.size = r.uncorrectedSize * P.designMargin * P.agingFactor ∧
      r.numberOfBatteriesRequired =
        truncToZero ((r.size * P.finalTolerance + P.nominalCapacity) /
          P.nominalCapacity) :=
  ⟨_, runSizing_ok h1 h2 hts,
    ⟨foldl_max_mem ts t, le_foldl_max ts t⟩, rfl, rfl, rfl⟩

/-- C3 witness: the spec §8 scenario end to end; the only section total
is `21200/153` and two batteries are required. -/
theorem ieee_c3_witness :
    sizesList wSeq wAmps wParams.nominalCapacity wParams.deratingFactorOnTemp
      wParams.numberOfSections.toNat = [21200/153] ∧
    ∃ r, runSizing wSeq wAmps wParams = .ok r ∧
      (r.maximumSectionSize ∈ [(21200 : ℚ)/153] ∧
        ∀ x ∈ [(21200 : ℚ)/153], x ≤ r.maximumSectionSize) ∧
      r.uncorrectedSize = r.maximumSectionSize + wParams.randomSize ∧
      r.size = r.uncorrectedSize * wParams.designMargin * wParams.agingFactor ∧
      r.numberOfBatteriesRequired =
        truncToZero ((r.size * wParams.finalTolerance + wParams.nominalCapacity) /
          wParams.nominalCapacity) :=
  have hts : sizesList wSeq wAmps wParams.nominalCapacity
      wParams.deratingFactorOnTemp wParams.numberOfSections.toNat = [21200/153] := by
    norm_num [sizesList, wSeq, wAmps, wParams, skipB, loadAt, sectionTotal,
      contribution, ktFactorFunction, cumDur, List.range', defaultPeriod]
  ⟨hts, ieee_c3 wSeq wAmps wParams (21200/153) [] (by decide) (by decide) hts⟩

/-- C4: when every candidate section `1..numberOfSections` is skipped,
the computation fails with the empty-maximum error and returns no
report (the `Except` result is a single `error` value, so failure is
atomic). -/
theorem ieee_c4 (seq : List Period) (amps : ℚ → ℚ) (P : Params)
    (h1 : 1 ≤ P.numberOfSections)
    (h2 : P.numberOfSections ≤ (seq.length : ℤ))
    (hall : ∀ S : ℕ, 1 ≤ S → S ≤ P.numberOfSections.toNat →
      skipB seq S = true) :
    runSizing seq amps P = .error .emptyResultError := by
  apply runSizing_empty h1 h2
  unfold sizesList
  have hnil : (List.range' 1 P.numberOfSections.toNat).filter
      (fun s => ! skipB seq s) = [] := by
    rw [List.filter_eq_nil_iff]
    intro a ha
    have hm := List.mem_range'_1.mp ha
    rw [hall a hm.1 (by omega)]
    simp
  rw [hnil]
  rfl

/-- C4 witness: a two-period rising duty cycle with
`numberOfSections = 1`; the single candidate section is skipped and
the run yields the empty-result failure. -/
theorem ieee_c4_witness :
    runSizing wSeqSkip wAmps wParamsSkip = .error .emptyResultError :=
  ieee_c4 wSeqSkip wAmps wParamsSkip (by decide) (by decide)
    (by
      intro S hS1 hS2
      norm_num [wParamsSkip, wParams] at hS2
      have hS : S = 1 := by omega
      rw [hS]
      rfl)

/-- C5 counterexample: with a discharge curve whose interpolated current
is `-5 ≤ 0`, the specification's `ktFactor` fails with `NumericError`,
but the source's `ktFactorFunction` returns `100 / (-5) = -20` and a
whole section evaluation completes without any failure. -/
theorem ieee_c5_counterexample :
    cxAmps 1 ≤ 0 ∧
    ktFactorSpec cxAmps 100 1 = .error .numericError ∧
    ktFactorFunction cxAmps 100 1 = -20 ∧
    evalSection [⟨10, 50, 1⟩] cxAmps 100 1 1 = .ok (-1000) := by
  refine ⟨by decide, by rfl, ?_, ?_⟩
  · norm_num [ktFactorFunction, cxAmps]
  · norm_num [evalSection, sectionStep, cxAmps, List.range', List.foldlM,
      ampsAtPeriod, durationBetweenPeriods, checkPeriod, ktFactorFunction,
      defaultPeriod]

/-- C5 as amended: `ktFactorFunction` divides unconditionally — it
returns `nominalCapacity / currentAt(duration)` for every duration, with
no `NumericError` check, so whenever the interpolated current is
non-zero (including negative) the result satisfies
`kt * currentAt(duration) = nominalCapacity`. -/
theorem ieee_c5_amended (amps : ℚ → ℚ) (C d : ℚ) (h : amps d ≠ 0) :
    ktFactorFunction amps C d * amps d = C := by
  unfold ktFactorFunction
  field_simp

/-- C5 witness: the amended statement at the negative-current curve. -/
theorem ieee_c5_witness :
    cxAmps 1 ≠ 0 ∧ ktFactorFunction cxAmps 100 1 * cxAmps 1 = 100 :=
  ⟨by decide, ieee_c5_amended cxAmps 100 1 (by decide)⟩

/-- C6: for valid bounds `1 ≤ first ≤ last ≤ periodCount`,
`durationBetweenPeriods` returns the sum of the individual period
durations over the inclusive 1-based range `[first, last]`. -/
theorem ieee_c6 (seq : List Period) (f l : ℕ) (h1 : 1 ≤ f) (h2 : f ≤ l)
    (h3 : l ≤ seq.length) :
    durationBetweenPeriods seq (f : ℤ) (l : ℤ) =
      .ok (∑ i in Finset.Icc f l, (seq.getD (i - 1) defaultPeriod).duration) := by
  rw [durationBetweenPeriods_ok h1 h2 h3, cumDur_eq_sum h1 h2 h3]

/-- C6 witness: on the two-period witness sequence,
`durationBetweenPeriods(1, 2)` is the sum of both durations. -/
theorem ieee_c6_witness :
    durationBetweenPeriods wSeq 1 2 =
      .ok (∑ i in Finset.Icc 1 2, (wSeq.getD (i - 1) defaultPeriod).duration) :=
  ieee_c6 wSeq 1 2 (by decide) (by decide) (by decide)

/-- C7: the current/cycle lookups and `durationBetweenPeriods` fail with
the range error for every 1-based index `< 1` or `> periodCount` (in
either bound position), and `durationBetweenPeriods` fails with the
order error for every pair of in-range bounds with `first > last`. -/
theorem ieee_c7 (seq : List Period) :
    (∀ p : ℤ, p < 1 ∨ (seq.length : ℤ) < p →
      ampsAtPeriod seq p = .error .rangeError ∧
      cycleAtPeriod seq p = .error .rangeError ∧
      (∀ l : ℤ, durationBetweenPeriods seq p l = .error .rangeError) ∧
      (∀ f : ℤ, 1 ≤ f → f ≤ (seq.length : ℤ) →
        durationBetweenPeriods seq f p = .error .rangeError)) ∧
    (∀ f l : ℤ, 1 ≤ f → f ≤ (seq.length : ℤ) → 1 ≤ l →
      l ≤ (seq.length : ℤ) → l < f →
      durationBetweenPeriods seq f l = .error .orderError) := by
  constructor
  · intro p hp
    have hcp : checkPeriod seq p = .error .rangeError := by
      unfold checkPeriod
      rw [if_pos (by omega)]
    refine ⟨?_, ?_, ?_, ?_⟩
    · simp [ampsAtPeriod, hcp]
    · simp [cycleAtPeriod, hcp]
    · intro l
      simp [durationBetweenPeriods, hcp]
    · intro f hf1 hf2
      have hcf : checkPeriod seq f = .ok () := checkPeriod_ok hf1 hf2
      simp [durationBetweenPeriods, hcf, hcp]
  · intro f l hf1 hf2 hl1 hl2 hlt
    have hcf : checkPeriod seq f = .ok () := checkPeriod_ok hf1 hf2
    have hcl : checkPeriod seq l = .ok () := checkPeriod_ok hl1 hl2
    have hgt : f > l := hlt
    simp [durationBetweenPeriods, hcf, hcl, hgt]

/-- C7 witness: index 0 and index 3 are rejected on the two-period
witness sequence, and swapped in-range bounds raise the order error. -/
theorem ieee_c7_witness :
    ampsAtPeriod wSeq 0 = .error .rangeError ∧
    cycleAtPeriod wSeq 3 = .error .rangeError ∧
    durationBetweenPeriods wSeq 2 1 = .error .orderError :=
  ⟨((ieee_c7 wSeq).1 0 (by decide)).1,
    ((ieee_c7 wSeq).1 3 (by decide)).2.1,
    (ieee_c7 wSeq).2 2 1 (by decide) (by decide) (by decide) (by decide)
      (by decide)⟩

/-- C8: the cubic-spline discharge-curve model passes through every
sample: `currentAt(duration_i) = current_i` for each sample
`(duration_i, current_i)` of a strictly-increasing sample list (`scipy`'s
interpolation is modelled over `ℚ`, where the round-trip is exact). -/
theorem ieee_c8 (pts : List (ℚ × ℚ)) (x y : ℚ)
    (hc : List.Chain' (fun p q : ℚ × ℚ => p.1 < q.1) pts)
    (hlen : 2 ≤ pts.length) (hm : (x, y) ∈ pts) :
    ampsByDurationFunction pts x = y :=
  splineEval_sample pts (splineCs pts) x y hc hlen hm

/-- C8 witness: the spec §8 sample set; the model returns `90` amps at
the sampled duration `10`. -/
theorem ieee_c8_witness :
    List.Chain' (fun p q : ℚ × ℚ => p.1 < q.1) wPts ∧
    ampsByDurationFunction wPts 10 = 90 :=
  have hc : List.Chain' (fun p q : ℚ × ℚ => p.1 < q.1) wPts := by
    norm_num [wPts, List.chain'_cons]
  ⟨hc, ieee_c8 wPts 10 90 hc (by decide) (by decide)⟩

/-- C9: a `numberOfSections` outside `[1, periodCount]` is rejected with
the range error before any section is evaluated: the whole run returns
that error and produces no section total or report. -/
theorem ieee_c9 (seq : List Period) (amps : ℚ → ℚ) (P : Params)
    (h : P.numberOfSections < 1 ∨ (seq.length : ℤ) < P.numberOfSections) :
    runSizing seq amps P = .error .rangeError := by
  have hcp : checkPeriod seq P.numberOfSections = .error .rangeError := by
    unfold checkPeriod
    rw [if_pos (by omega)]
  simp [runSizing, hcp]

/-- C9 witness: `numberOfSections = 3` on the two-period witness
sequence is rejected. -/
theorem ieee_c9_witness :
    runSizing wSeq wAmps wParamsBad = .error .rangeError :=
  ieee_c9 wSeq wAmps wParamsBad (by decide)

/-- C10: for every section index at or beyond `periodCount` the skip
test's first conjunct is false, so the section is evaluated; hence with
`numberOfSections = periodCount ≥ 1` the totals list is non-empty and
the run cannot hit the empty-maximum failure — it returns a report. -/
theorem ieee_c10 (seq : List Period) (amps : ℚ → ℚ) (P : Params) :
    (∀ S : ℕ, seq.length ≤ S → skipTest seq S = .ok false) ∧
    (P.numberOfSections = (seq.length : ℤ) → 1 ≤ seq.length →
      ∃ r, runSizing seq amps P = .ok r) := by
  constructor
  · intro S hS
    unfold skipTest
    rw [if_neg (by omega)]
    rfl
  · intro hNP hlen
    have hNl : P.numberOfSections.toNat = seq.length := by omega
    have hmem : seq.length ∈ List.range' 1 P.numberOfSections.toNat := by
      rw [List.mem_range'_1]
      omega
    have hns : skipB seq seq.length = false := by
      unfold skipB
      simp
    have hmf : seq.length ∈ (List.range' 1 P.numberOfSections.toNat).filter
        (fun s => ! skipB seq s) := by
      rw [List.mem_filter]
      exact ⟨hmem, by simp [hns]⟩
    have hne : sizesList seq amps P.nominalCapacity P.deratingFactorOnTemp
        P.numberOfSections.toNat ≠ [] := by
      unfold sizesList
      intro hnil
      rw [List.map_eq_nil_iff] at hnil
      rw [hnil] at hmf
      simp at hmf
    obtain ⟨t, ts, hts⟩ := List.exists_cons_of_ne_nil hne
    exact ⟨_, runSizing_ok (by omega) (by omega) hts⟩

/-- C10 witness: the skip test at an out-of-sequence index is false, and
the witness run with `numberOfSections = periodCount = 2` returns a
report. -/
theorem ieee_c10_witness :
    skipTest wSeq 5 = .ok false ∧
    ∃ r, runSizing wSeq wAmps wParams = .ok r :=
  ⟨(ieee_c10 wSeq wAmps wParams).1 5 (by decide),
    (ieee_c10 wSeq wAmps wParams).2 (by decide) (by decide)⟩

end IEEE1115
